import Mathlib

/-!
Verification development for the canvas application: a shallow embedding of
the scene data model, the undo/redo history engine, the live-overlay commit
path, selection handling, drag and crop interaction steps, snapshot import,
and the generation-request preparation, together with theorems about them.

Coordinates are modelled as rationals, identifiers and colors as strings, and
opaque runtime handles (decoded image elements, file payloads) are reduced to
the fields the program actually reads from them (dimensions, file name, file
type).
-/

set_option maxRecDepth 100000

namespace CanvaBanana

/-- The closed tool set from types.ts. -/
inductive Tool where
  | SELECTION
  | PAN
  | ANNOTATE
  | INPAINT
  | BRUSH
  | FREE_SELECTION
  | NOTE
  | ERASE
deriving DecidableEq, Repr

/-- A world-space point. -/
structure Point where
  x : ℚ
  y : ℚ
deriving DecidableEq, Repr

/-- A freehand stroke. -/
structure Path where
  points : List Point
  color : String
  size : ℚ
  tool : Tool
deriving DecidableEq, Repr

/-- A placed image. The decoded element and the file payload are opaque at
runtime; the model keeps the fields the program reads from them. -/
structure CanvasImage where
  id : String
  x : ℚ
  y : ℚ
  width : ℚ
  height : ℚ
  naturalWidth : ℚ
  naturalHeight : ℚ
  fileName : String
  fileType : String
deriving DecidableEq, Repr

/-- A sticky text note. -/
structure CanvasNote where
  id : String
  x : ℚ
  y : ℚ
  width : ℚ
  height : ℚ
  text : String
  backgroundColor : String
deriving DecidableEq, Repr

/-- The committed scene tuple. -/
structure AppState where
  images : List CanvasImage
  paths : List Path
  notes : List CanvasNote
deriving DecidableEq, Repr

def emptyState : AppState :=
  { images := [], paths := [], notes := [] }

def MAX_HISTORY_SIZE : ℕ := 30

def MAX_REFERENCE_IMAGES : ℕ := 2

def DEFAULT_NOTE_BACKGROUND : String := "#1f2937"

/-- Model of JavaScript toFixed with two digits: the rounded value, kept as an
integer count of hundredths. -/
def round2 (q : ℚ) : ℤ := (q * 100 + 1/2).floor

/-- Model of JavaScript toFixed with zero digits. -/
def round0 (q : ℚ) : ℤ := (q + 1/2).floor

/-- One image component of the dedup signature: id, position rounded to two
decimals, and raw display size. -/
structure ImageSig where
  id : String
  rx : ℤ
  ry : ℤ
  w : ℚ
  h : ℚ
deriving DecidableEq, Repr

/-- One path component of the dedup signature: point count and tool. -/
structure PathSig where
  nPoints : ℕ
  tool : Tool
deriving DecidableEq, Repr

/-- One note component of the dedup signature: id, rounded geometry, and text
length. -/
structure NoteSig where
  id : String
  rx : ℤ
  ry : ℤ
  rw : ℤ
  rh : ℤ
  textLen : ℕ
deriving DecidableEq, Repr

/-- The cheap structural signature used by the dedup guard. -/
structure StateSig where
  images : List ImageSig
  paths : List PathSig
  notes : List NoteSig
deriving DecidableEq, Repr

/-- getStateSignature from the history engine. The source joins these
components into a separator-delimited string; the structured value here is
an injective encoding of that string, so equality of signatures coincides
with equality of the source strings. -/
def getStateSignature (state : AppState) : StateSig :=
  { images := state.images.map fun img =>
      { id := img.id, rx := round2 img.x, ry := round2 img.y, w := img.width, h := img.height }
  , paths := state.paths.map fun p =>
      { nPoints := p.points.length, tool := p.tool }
  , notes := state.notes.map fun n =>
      { id := n.id, rx := round2 n.x, ry := round2 n.y
      , rw := round0 n.width, rh := round0 n.height, textLen := n.text.length } }

/-- The rectangle-overlap test used to decide whether a reference image must
be rasterized together with the primary. -/
def isOverlapping (img1 img2 : CanvasImage) : Bool :=
  decide (¬ (img1.x > img2.x + img2.width ∨
             img1.x + img1.width < img2.x ∨
             img1.y > img2.y + img2.height ∨
             img1.y + img1.height < img2.y))

/-- The bounded history list with its current index. -/
structure HistoryState where
  history : List AppState
  index : ℕ
deriving DecidableEq, Repr

/-- The scene at the current history index. -/
def currentScene (hs : HistoryState) : AppState :=
  hs.history.getD hs.index emptyState

/-- The history push (setState in the app): dedup by signature, truncate any
abandoned future, append, and drop the oldest entry when over capacity. -/
def setState (hs : HistoryState) (updater : AppState → AppState) : HistoryState :=
  let prevState := hs.history.getD hs.index emptyState
  let newState := updater prevState
  if getStateSignature newState = getStateSignature prevState then hs
  else
    let newHistory := hs.history.take (hs.index + 1) ++ [newState]
    let trimmed := if MAX_HISTORY_SIZE < newHistory.length then newHistory.drop 1 else newHistory
    { history := trimmed, index := trimmed.length - 1 }

/-- Pushing a fixed state (a setState whose updater ignores the previous
scene). -/
def pushState (hs : HistoryState) (st : AppState) : HistoryState :=
  setState hs fun _ => st

/-- The initial single-entry history. -/
def initialHistory : HistoryState :=
  { history := [emptyState], index := 0 }

/-- The three optional live-overlay slots. -/
structure LiveOverlay where
  images : Option (List CanvasImage)
  paths : Option (List Path)
  notes : Option (List CanvasNote)
deriving DecidableEq, Repr

def noLive : LiveOverlay :=
  { images := none, paths := none, notes := none }

/-- The committed history together with the live overlay. -/
structure AppFull where
  hist : HistoryState
  live : LiveOverlay
deriving DecidableEq, Repr

/-- The scene obtained by letting the live slots shadow a committed scene. -/
def overlayScene (live : LiveOverlay) (st : AppState) : AppState :=
  { images := live.images.getD st.images
  , paths := live.paths.getD st.paths
  , notes := live.notes.getD st.notes }

/-- handleCommit: when any live slot is set, fold the overlay into a history
push and clear all three slots. -/
def handleCommit (s : AppFull) : AppFull :=
  if s.live.images = none ∧ s.live.paths = none ∧ s.live.notes = none then s
  else
    { hist := setState s.hist fun prevState => overlayScene s.live prevState
    , live := noLive }

/-- undo: clear the live overlay and move the index down, when possible. -/
def undo (s : AppFull) : AppFull :=
  if 0 < s.hist.index then
    { hist := { history := s.hist.history, index := s.hist.index - 1 }, live := noLive }
  else s

/-- redo: clear the live overlay and move the index up, when possible. -/
def redo (s : AppFull) : AppFull :=
  if s.hist.index < s.hist.history.length - 1 then
    { hist := { history := s.hist.history, index := s.hist.index + 1 }, live := noLive }
  else s

/-- The three selection id lists. -/
structure SelectionState where
  selectedImageIds : List String
  selectedNoteIds : List String
  referenceImageIds : List String
deriving DecidableEq, Repr

/-- handleImageSelection: reference-toggle, multi-toggle, or single select,
in the priority order of the source. -/
def handleImageSelection (s : SelectionState) (imageId : Option String)
    (multi : Bool) (reference : Bool) : SelectionState :=
  match imageId with
  | none =>
      if multi then s
      else { selectedImageIds := [], selectedNoteIds := [], referenceImageIds := [] }
  | some imageId =>
      if reference && (match s.selectedImageIds.head? with
                       | some pid => decide (imageId ≠ pid)
                       | none => false) then
        { s with referenceImageIds :=
            if s.referenceImageIds.contains imageId then
              s.referenceImageIds.filter fun id => id ≠ imageId
            else if s.referenceImageIds.length < MAX_REFERENCE_IMAGES then
              s.referenceImageIds ++ [imageId]
            else
              s.referenceImageIds }
      else if multi then
        { s with referenceImageIds := []
               , selectedImageIds :=
                   if s.selectedImageIds.contains imageId then
                     s.selectedImageIds.filter fun id => id ≠ imageId
                   else
                     s.selectedImageIds ++ [imageId] }
      else if s.selectedImageIds.head? = some imageId ∧ s.selectedImageIds.length = 1 then
        { s with selectedNoteIds := [], referenceImageIds := [] }
      else
        { selectedImageIds := [imageId], selectedNoteIds := [], referenceImageIds := [] }

/-- handleNoteSelection: multi-toggle or single select. -/
def handleNoteSelection (s : SelectionState) (noteId : Option String)
    (multi : Bool) : SelectionState :=
  match noteId with
  | none =>
      if multi then s
      else { selectedImageIds := [], selectedNoteIds := [], referenceImageIds := [] }
  | some noteId =>
      if multi then
        { s with selectedNoteIds :=
            if s.selectedNoteIds.contains noteId then
              s.selectedNoteIds.filter fun id => id ≠ noteId
            else
              s.selectedNoteIds ++ [noteId] }
      else if s.selectedNoteIds.head? = some noteId ∧ s.selectedNoteIds.length = 1 then
        { s with selectedImageIds := [], referenceImageIds := [] }
      else
        { selectedImageIds := [], selectedNoteIds := [noteId], referenceImageIds := [] }

/-- beginDrag: record the drag-start position of every dragged image found in
the scene, keyed by id. -/
def beginDragImagePositions (images : List CanvasImage) (ids : List String) :
    List (String × Point) :=
  ids.filterMap fun id =>
    (images.find? fun img => img.id = id).map fun img => (id, Point.mk img.x img.y)

/-- beginDrag: the same for notes. -/
def beginDragNotePositions (notes : List CanvasNote) (ids : List String) :
    List (String × Point) :=
  ids.filterMap fun id =>
    (notes.find? fun n => n.id = id).map fun n => (id, Point.mk n.x n.y)

/-- Lookup in a drag-start position record. -/
def lookupPos (m : List (String × Point)) (id : String) : Option Point :=
  (m.find? fun e => e.1 = id).map fun e => e.2

/-- The per-image update of a drag pointer-move event: a dragged image with a
recorded start position is placed at that start position plus the current
screen delta divided by the zoom scale. -/
def dragImageApply (scale : ℚ) (anchor : Point) (draggedImageIds : List String)
    (startPositions : List (String × Point)) (pointer : Point)
    (image : CanvasImage) : CanvasImage :=
  if draggedImageIds.contains image.id then
    match lookupPos startPositions image.id with
    | some p => { image with x := p.x + (pointer.x - anchor.x) / scale,
                             y := p.y + (pointer.y - anchor.y) / scale }
    | none => image
  else image

/-- One drag pointer-move event applied to the images. -/
def dragImagesStep (scale : ℚ) (anchor : Point) (draggedImageIds : List String)
    (startPositions : List (String × Point)) (images : List CanvasImage)
    (pointer : Point) : List CanvasImage :=
  if draggedImageIds ≠ [] ∧ startPositions ≠ [] then
    images.map (dragImageApply scale anchor draggedImageIds startPositions pointer)
  else images

/-- The per-note update of a drag pointer-move event. -/
def dragNoteApply (scale : ℚ) (anchor : Point) (draggedNoteIds : List String)
    (startPositions : List (String × Point)) (pointer : Point)
    (noteItem : CanvasNote) : CanvasNote :=
  if draggedNoteIds.contains noteItem.id then
    match lookupPos startPositions noteItem.id with
    | some p => { noteItem with x := p.x + (pointer.x - anchor.x) / scale,
                                y := p.y + (pointer.y - anchor.y) / scale }
    | none => noteItem
  else noteItem

/-- One drag pointer-move event applied to the notes. -/
def dragNotesStep (scale : ℚ) (anchor : Point) (draggedNoteIds : List String)
    (startPositions : List (String × Point)) (notes : List CanvasNote)
    (pointer : Point) : List CanvasNote :=
  if draggedNoteIds ≠ [] ∧ startPositions ≠ [] then
    notes.map (dragNoteApply scale anchor draggedNoteIds startPositions pointer)
  else notes

/-- The nine crop actions. -/
inductive CropAction where
  | move
  | resizeTL
  | resizeT
  | resizeTR
  | resizeR
  | resizeBR
  | resizeB
  | resizeBL
  | resizeL
deriving DecidableEq, Repr

/-- An axis-aligned rectangle in the local coordinate space of an image. -/
structure Rect where
  x : ℚ
  y : ℚ
  width : ℚ
  height : ℚ
deriving DecidableEq, Repr

/-- The per-handle edit rule applied to the rectangle recorded at the start
of the crop drag. -/
def applyCropAction (action : CropAction) (startRect : Rect) (dx dy : ℚ) : Rect :=
  match action with
  | .move =>
      { startRect with x := startRect.x + dx, y := startRect.y + dy }
  | .resizeTL =>
      { x := startRect.x + dx, y := startRect.y + dy,
        width := startRect.width - dx, height := startRect.height - dy }
  | .resizeT =>
      { startRect with y := startRect.y + dy, height := startRect.height - dy }
  | .resizeTR =>
      { startRect with y := startRect.y + dy,
                       width := startRect.width + dx, height := startRect.height - dy }
  | .resizeR =>
      { startRect with width := startRect.width + dx }
  | .resizeBR =>
      { startRect with width := startRect.width + dx, height := startRect.height + dy }
  | .resizeB =>
      { startRect with height := startRect.height + dy }
  | .resizeBL =>
      { x := startRect.x + dx, y := startRect.y,
        width := startRect.width - dx, height := startRect.height + dy }
  | .resizeL =>
      { startRect with x := startRect.x + dx, width := startRect.width - dx }

/-- Normalize negative width or height by flipping the origin. -/
def flipNegative (r : Rect) : Rect :=
  let r1 := if r.width < 0 then { r with x := r.x + r.width, width := -r.width } else r
  if r1.height < 0 then { r1 with y := r1.y + r1.height, height := -r1.height } else r1

/-- Clamp the rectangle to the source image bounds, in source order: clamp x,
clamp y, then cut width and height against the far edges. -/
def clampRect (imageWidth imageHeight : ℚ) (r : Rect) : Rect :=
  { x := max 0 r.x
  , y := max 0 r.y
  , width := if max 0 r.x + r.width > imageWidth then imageWidth - max 0 r.x else r.width
  , height := if max 0 r.y + r.height > imageHeight then imageHeight - max 0 r.y else r.height }

/-- One crop pointer-move event: apply the handle rule to the drag-start
rectangle, flip negatives, clamp to the image bounds. -/
def cropMoveStep (imageWidth imageHeight : ℚ) (startRect : Rect)
    (step : CropAction × ℚ × ℚ) : Rect :=
  clampRect imageWidth imageHeight
    (flipNegative (applyCropAction step.1 startRect step.2.1 step.2.2))

/-- The outcome of confirming a crop. -/
inductive CropConfirmOutcome where
  | cancelled
  | confirmed (rect : Rect)
deriving DecidableEq, Repr

/-- handleConfirmCrop on the rectangle: a non-positive width or height
cancels the crop instead of confirming it. -/
def handleConfirmCrop (rect : Rect) : CropConfirmOutcome :=
  if rect.width ≤ 0 ∨ rect.height ≤ 0 then .cancelled else .confirmed rect

/-- The application mode. -/
inductive AppMode where
  | CANVAS
  | ANNOTATE
  | INPAINT
deriving DecidableEq, Repr

/-- The tool tag a new stroke receives: plain erase stays erase, brush
becomes annotate or inpaint depending on the mode and is a no-op in canvas
mode. -/
def resolvePathTool (appMode : AppMode) (activeTool : Tool) : Option Tool :=
  if activeTool = Tool.BRUSH then
    match appMode with
    | .ANNOTATE => some Tool.ANNOTATE
    | .INPAINT => some Tool.INPAINT
    | .CANVAS => none
  else some activeTool

/-- Starting a stroke on pointer-down with the brush or erase tool: the new
path opens with exactly the pressed point; the brush is a no-op outside the
annotate and inpaint modes. -/
def startDrawing (appMode : AppMode) (activeTool : Tool) (brushColor : String)
    (brushSize : ℚ) (scale : ℚ) (point : Point) (paths : List Path) : List Path :=
  if activeTool = Tool.BRUSH ∨ activeTool = Tool.ERASE then
    match resolvePathTool appMode activeTool with
    | none => paths
    | some t =>
        paths ++ [{ points := [point], color := brushColor, size := brushSize / scale, tool := t }]
  else paths

/-- A drawing pointer-move event: append the transformed point to the path
currently being built (the last one). -/
def drawMove (point : Point) (paths : List Path) : List Path :=
  match paths.reverse with
  | [] => paths
  | last :: revInit => (revInit.reverse) ++ [{ last with points := last.points ++ [point] }]

/-- Parsed JSON values, as produced by JSON.parse. -/
inductive Json where
  | null
  | bool (b : Bool)
  | num (q : ℚ)
  | str (s : String)
  | arr (items : List Json)
  | obj (fields : List (String × Json))

/-- JavaScript truthiness of a parsed JSON value. -/
def Json.truthy : Json → Bool
  | .null => false
  | .bool b => b
  | .num q => decide (q ≠ 0)
  | .str s => decide (s ≠ "")
  | .arr _ => true
  | .obj _ => true

/-- Whether typeof yields the string object: true for null, arrays and
objects. -/
def Json.isObjectType : Json → Bool
  | .null => true
  | .arr _ => true
  | .obj _ => true
  | _ => false

/-- Property access: the first field with the given key, none otherwise. -/
def Json.get? (j : Json) (k : String) : Option Json :=
  match j with
  | .obj fields => (fields.find? fun f => f.1 = k).map fun f => f.2
  | _ => none

/-- The string value of a property, when it is a string. -/
def Json.getStr? (j : Json) (k : String) : Option String :=
  match j.get? k with
  | some (.str s) => some s
  | _ => none

/-- The numeric value of a property, when it is a number. -/
def Json.getNum? (j : Json) (k : String) : Option ℚ :=
  match j.get? k with
  | some (.num q) => some q
  | _ => none

/-- A model of crypto.randomUUID: fresh identifiers drawn from a counter. -/
def freshId (counter : ℕ) : String :=
  "uuid-" ++ toString counter

/-- The Tool value encoded by a string, when the string is one of the eight
tool tags. -/
def toolOfString? (s : String) : Option Tool :=
  if s = "SELECTION" then some Tool.SELECTION
  else if s = "PAN" then some Tool.PAN
  else if s = "ANNOTATE" then some Tool.ANNOTATE
  else if s = "INPAINT" then some Tool.INPAINT
  else if s = "BRUSH" then some Tool.BRUSH
  else if s = "FREE_SELECTION" then some Tool.FREE_SELECTION
  else if s = "NOTE" then some Tool.NOTE
  else if s = "ERASE" then some Tool.ERASE
  else none

/-- The id a snapshot entry carries, when it is a nonempty string. -/
def givenId (j : Json) : Option String :=
  match j.getStr? "id" with
  | some s => if s ≠ "" then some s else none
  | none => none

/-- A fresh id is drawn from the counter exactly when the entry carries no
usable id. -/
def nextCounter (j : Json) (counter : ℕ) : ℕ :=
  if (givenId j).isSome then counter else counter + 1

/-- Restore one image entry, substituting defaults for missing or malformed
fields; dims are the decoded natural dimensions. -/
def restoreImage (img : Json) (index counter : ℕ) (dims : ℚ × ℚ) : CanvasImage :=
  { id := (givenId img).getD (freshId counter)
  , x := (img.getNum? "x").getD 0
  , y := (img.getNum? "y").getD 0
  , width := (img.getNum? "width").getD (if dims.1 = 0 then 1 else dims.1)
  , height := (img.getNum? "height").getD (if dims.2 = 0 then 1 else dims.2)
  , naturalWidth := if dims.1 = 0 then 1 else dims.1
  , naturalHeight := if dims.2 = 0 then 1 else dims.2
  , fileName :=
      match img.getStr? "fileName" with
      | some s => if s ≠ "" then s else "snapshot-image-" ++ toString (index + 1) ++ ".png"
      | none => "snapshot-image-" ++ toString (index + 1) ++ ".png"
  , fileType :=
      match img.getStr? "fileType" with
      | some s => if s ≠ "" then s else "image/png"
      | none => "image/png" }

/-- Restore the image entries of a snapshot. An entry that is not a truthy
object with a string dataUrl throws, rejecting the whole import; a failed
decode also rejects it. The decode oracle stands for loading the data URL
and returns the natural dimensions. The counter feeds fresh ids. -/
def importImages (decode : String → Option (ℚ × ℚ)) :
    List Json → ℕ → ℕ → Except String (List CanvasImage × ℕ)
  | [], _, counter => .ok ([], counter)
  | img :: rest, index, counter =>
      if ¬ (img.truthy ∧ img.isObjectType ∧ (img.getStr? "dataUrl").isSome) then
        .error ("Snapshot image at index " ++ toString index ++ " is invalid.")
      else
        match img.getStr? "dataUrl" with
        | none => .error ("Snapshot image at index " ++ toString index ++ " is invalid.")
        | some dataUrl =>
            match decode dataUrl with
            | none => .error "Failed to load image."
            | some dims =>
                match importImages decode rest (index + 1) (nextCounter img counter) with
                | .error e => .error e
                | .ok (imgs, counter2) =>
                    .ok (restoreImage img index counter dims :: imgs, counter2)

/-- Sanitize one note entry: per-entry defaults, a fresh id only when the id
is absent or empty. -/
def restoreNote (note : Json) (counter : ℕ) : CanvasNote :=
  { id := (givenId note).getD (freshId counter)
  , x := (note.getNum? "x").getD 0
  , y := (note.getNum? "y").getD 0
  , width := (note.getNum? "width").getD 200
  , height := (note.getNum? "height").getD 120
  , text := (note.getStr? "text").getD ""
  , backgroundColor :=
      match note.getStr? "backgroundColor" with
      | some s => if s ≠ "" then s else DEFAULT_NOTE_BACKGROUND
      | none => DEFAULT_NOTE_BACKGROUND }

/-- Sanitize the note entries of a snapshot; no entry is ever rejected. -/
def importNotes : List Json → ℕ → List CanvasNote × ℕ
  | [], counter => ([], counter)
  | note :: rest, counter =>
      let result := importNotes rest (nextCounter note counter)
      (restoreNote note counter :: result.1, result.2)

/-- Sanitize one path entry of a snapshot: malformed points are dropped, the
tool falls back to brush, color and size fall back to the current brush
settings. The entry itself is always kept. -/
def importPath (brushColor : String) (brushSize : ℚ) (path : Json) : Path :=
  let rawPoints :=
    match path.get? "points" with
    | some (.arr items) => items
    | _ => []
  let points := rawPoints.filterMap fun point =>
    if point.truthy ∧ point.isObjectType then
      match point.getNum? "x", point.getNum? "y" with
      | some x, some y => some (Point.mk x y)
      | _, _ => none
    else none
  let tool :=
    match path.getStr? "tool" with
    | some s => (toolOfString? s).getD Tool.BRUSH
    | none => Tool.BRUSH
  let color :=
    match path.getStr? "color" with
    | some s => if s ≠ "" then s else brushColor
    | none => brushColor
  let size := (path.getNum? "size").getD brushSize
  { points := points, color := color, size := size, tool := tool }

/-- handleImportSnapshotFromFile after JSON parsing: validate the top level,
then restore images (which may reject the document) and sanitize notes and
paths per entry. -/
def importSnapshotFromFile (brushColor : String) (brushSize : ℚ)
    (decode : String → Option (ℚ × ℚ)) (parsed : Json) : Except String AppState :=
  if ¬ (parsed.truthy ∧ parsed.isObjectType ∧
        ((parsed.get? "state").map Json.truthy).getD false) then
    .error "Snapshot file is invalid."
  else
    match parsed.get? "state" with
    | none => .error "Snapshot file is invalid."
    | some state =>
        let imagesJ := (state.get? "images").getD (.arr [])
        let notesJ := (state.get? "notes").getD (.arr [])
        let pathsJ := (state.get? "paths").getD (.arr [])
        match imagesJ, notesJ, pathsJ with
        | .arr imgs, .arr nts, .arr pths =>
            match importImages decode imgs 0 0 with
            | .error e => .error e
            | .ok (restoredImages, counter1) =>
                let (sanitizedNotes, _) := importNotes nts counter1
                let sanitizedPaths := pths.map (importPath brushColor brushSize)
                .ok { images := restoredImages, paths := sanitizedPaths, notes := sanitizedNotes }
        | _, _, _ => .error "Snapshot data is incomplete."

/-- A successful import resets the history to a single entry at index zero
and clears the live overlay. -/
def importToAppFull (brushColor : String) (brushSize : ℚ)
    (decode : String → Option (ℚ × ℚ)) (parsed : Json) : Except String AppFull :=
  (importSnapshotFromFile brushColor brushSize decode parsed).map fun nextState =>
    { hist := { history := [nextState], index := 0 }, live := noLive }

/-- The shape of the source input prepared for a generation edit request. -/
structure PreparedRequest where
  compositeSource : Bool
  sourceImageIds : List String
  referenceImagesForAPI : List String
deriving DecidableEq, Repr

/-- The edit branch of handleGenerate: resolve the reference ids, and when
any resolved reference overlaps the primary, rasterize the primary together
with all references into one composite source and send no references;
otherwise send the primary standalone with the references as auxiliary
inputs. -/
def prepareGenerationInputs (images : List CanvasImage) (activePrimaryImage : CanvasImage)
    (referenceImageIds : List String) : PreparedRequest :=
  let referenceCanvasImages :=
    referenceImageIds.filterMap fun id => images.find? fun img => img.id = id
  let shouldCompose :=
    referenceCanvasImages ≠ [] ∧
      referenceCanvasImages.any fun refImg => isOverlapping activePrimaryImage refImg
  if shouldCompose then
    let imageIdsToCompose := (activePrimaryImage :: referenceCanvasImages).map fun img => img.id
    let imagesToCompose := images.filter fun img => imageIdsToCompose.contains img.id
    { compositeSource := true
    , sourceImageIds := imagesToCompose.map fun img => img.id
    , referenceImagesForAPI := [] }
  else
    { compositeSource := false
    , sourceImageIds := [activePrimaryImage.id]
    , referenceImagesForAPI := referenceCanvasImages.map fun img => img.id }

/-- Push a whole sequence of states through the history engine. -/
def pushSeq (hs : HistoryState) (sts : List AppState) : HistoryState :=
  sts.foldl pushState hs

/-- Iterated undo. -/
def undoIter (n : ℕ) (s : AppFull) : AppFull :=
  undo^[n] s

/-- A family of scenes with pairwise distinct signatures: one note whose x
coordinate is the parameter. -/
def noteScene (n : ℕ) : AppState :=
  { images := []
  , paths := []
  , notes := [{ id := "n", x := (n : ℚ), y := 0, width := 0, height := 0
              , text := "", backgroundColor := "c" }] }

/-- The thirty-five pairwise distinct scenes pushed for the history-cap
scenario. -/
def scenes35 : List AppState :=
  (List.range 35).map fun n => noteScene (n + 1)

/-- The thirty newest of those scenes, the expected final history. -/
def newest30 : List AppState :=
  (List.range 30).map fun n => noteScene (n + 6)

theorem getD_append_lt {α : Type} (l1 l2 : List α) (d : α) (n : ℕ) (h : n < l1.length) :
    (l1 ++ l2).getD n d = l1.getD n d := by
  induction l1 generalizing n with
  | nil => simp at h
  | cons a t ih =>
      cases n with
      | zero => rfl
      | succ m => exact ih m (by simpa using h)

theorem getD_append_len {α : Type} (l1 l2 : List α) (d : α) :
    (l1 ++ l2).getD l1.length d = l2.getD 0 d := by
  induction l1 with
  | nil => rfl
  | cons a t ih => simpa using ih

theorem getD_take {α : Type} (l : List α) (m n : ℕ) (d : α) (h : n < m) :
    (l.take m).getD n d = l.getD n d := by
  induction l generalizing m n with
  | nil => simp
  | cons a t ih =>
      cases m with
      | zero => simp at h
      | succ m1 =>
          cases n with
          | zero => rfl
          | succ n1 => exact ih m1 n1 (by omega)

theorem getD_drop {α : Type} (l : List α) (k n : ℕ) (d : α) :
    (l.drop k).getD n d = l.getD (k + n) d := by
  induction l generalizing k with
  | nil => simp
  | cons a t ih =>
      cases k with
      | zero => simp
      | succ k1 => simp [Nat.succ_add, ih k1]

theorem getD_mem {α : Type} (l : List α) (n : ℕ) (d : α) (h : n < l.length) :
    l.getD n d ∈ l := by
  induction l generalizing n with
  | nil => simp at h
  | cons a t ih =>
      cases n with
      | zero => simp [List.getD]
      | succ m =>
          have := ih m (by simpa using h)
          simpa [List.getD] using List.mem_cons_of_mem a (by simpa [List.getD] using this)

theorem pushState_inv (hs : HistoryState) (st : AppState)
    (hlen : hs.history.length ≤ MAX_HISTORY_SIZE) (hidx : hs.index < hs.history.length) :
    (pushState hs st).history.length ≤ MAX_HISTORY_SIZE ∧
      (pushState hs st).index < (pushState hs st).history.length := by
  unfold pushState setState
  by_cases hsig :
      getStateSignature st = getStateSignature (hs.history.getD hs.index emptyState)
  · simp only [hsig, if_true]
    exact ⟨hlen, hidx⟩
  · simp only [hsig, if_false]
    have htk : (hs.history.take (hs.index + 1)).length ≤ hs.history.length := by
      simp [List.length_take]
    by_cases hcap :
        MAX_HISTORY_SIZE < (hs.history.take (hs.index + 1) ++ [st]).length
    · simp only [hcap, if_true]
      constructor
      · simp only [List.length_drop, List.length_append, List.length_cons, List.length_nil] at *
        omega
      · simp only [List.length_drop, List.length_append, List.length_cons, List.length_nil] at *
        have : 0 < (hs.history.take (hs.index + 1)).length + 1 - 1 := by
          simp only [MAX_HISTORY_SIZE] at hcap
          omega
        omega
    · simp only [hcap, if_false]
      constructor
      · simp only [List.length_append, List.length_cons, List.length_nil] at *
        omega
      · simp only [List.length_append, List.length_cons, List.length_nil]
        omega

theorem pushSeq_inv (sts : List AppState) (hs : HistoryState)
    (hlen : hs.history.length ≤ MAX_HISTORY_SIZE) (hidx : hs.index < hs.history.length) :
    (pushSeq hs sts).history.length ≤ MAX_HISTORY_SIZE ∧
      (pushSeq hs sts).index < (pushSeq hs sts).history.length := by
  induction sts generalizing hs with
  | nil => exact ⟨hlen, hidx⟩
  | cons a t ih =>
      have h1 := pushState_inv hs a hlen hidx
      simpa [pushSeq, List.foldl_cons] using ih (pushState hs a) h1.1 h1.2

theorem undo_keeps_history (s : AppFull) :
    (undo s).hist.history = s.hist.history ∧ (undo s).hist.index ≤ s.hist.index := by
  by_cases h : 0 < s.hist.index
  all_goals simp [undo, h, Nat.sub_le]

theorem undoIter_history (n : ℕ) (s : AppFull) :
    (undoIter n s).hist.history = s.hist.history := by
  induction n with
  | zero => rfl
  | succ m ih =>
      have heq : undoIter (m + 1) s = undo (undoIter m s) := by
        simp [undoIter, Function.iterate_succ_apply']
      rw [heq, (undo_keeps_history (undoIter m s)).1, ih]

theorem undoIter_index_le (n : ℕ) (s : AppFull) :
    (undoIter n s).hist.index ≤ s.hist.index := by
  induction n with
  | zero => exact le_refl _
  | succ m ih =>
      have heq : undoIter (m + 1) s = undo (undoIter m s) := by
        simp [undoIter, Function.iterate_succ_apply']
      rw [heq]
      exact le_trans (undo_keeps_history (undoIter m s)).2 ih

theorem undoIter_scene_mem (n : ℕ) (s : AppFull) (hidx : s.hist.index < s.hist.history.length) :
    currentScene (undoIter n s).hist ∈ s.hist.history := by
  have h1 := undoIter_history n s
  have h2 := undoIter_index_le n s
  have h3 : (undoIter n s).hist.index < s.hist.history.length := by omega
  unfold currentScene
  rw [h1]
  exact getD_mem _ _ emptyState h3

/-- C3: pushing a scene whose structural signature equals the signature of
the current scene is a no-op: the whole history state, in particular the
history list length and the current index, is unchanged. -/
theorem push_dedup_noop (hs : HistoryState) (st : AppState)
    (h : getStateSignature st = getStateSignature (currentScene hs)) :
    pushState hs st = hs := by
  unfold pushState setState
  simp only [currentScene] at h
  simp [h]

/-- Witness for push_dedup_noop at a concrete one-entry history. -/
theorem push_dedup_noop_witness :
    pushState { history := [noteScene 1], index := 0 } (noteScene 1) =
      { history := [noteScene 1], index := 0 } :=
  push_dedup_noop { history := [noteScene 1], index := 0 } (noteScene 1) rfl

/-- C2: pushing any sequence of states through a history with at most thirty
entries and a valid index keeps the length at most thirty and the index
valid; pushing thirty-five pairwise distinct states onto the initial
single-entry history leaves exactly thirty entries, namely the thirty newest
scenes, and the five oldest pushed scenes are unreachable by any number of
undo calls. -/
theorem history_cap_and_drop :
    (∀ (sts : List AppState) (hs : HistoryState),
        hs.history.length ≤ MAX_HISTORY_SIZE → hs.index < hs.history.length →
        (pushSeq hs sts).history.length ≤ MAX_HISTORY_SIZE ∧
          (pushSeq hs sts).index < (pushSeq hs sts).history.length) ∧
    (pushSeq initialHistory scenes35).history.length = MAX_HISTORY_SIZE ∧
    (pushSeq initialHistory scenes35).history = newest30 ∧
    (∀ n : ℕ, ∀ j ∈ ([1, 2, 3, 4, 5] : List ℕ),
        getStateSignature (currentScene
            (undoIter n { hist := pushSeq initialHistory scenes35, live := noLive }).hist) ≠
          getStateSignature (noteScene j)) := by
  have hfin : pushSeq initialHistory scenes35 = { history := newest30, index := 29 } := by
    with_unfolding_all decide
  have hall : ∀ st ∈ newest30, ∀ j ∈ ([1, 2, 3, 4, 5] : List ℕ),
      getStateSignature st ≠ getStateSignature (noteScene j) := by
    with_unfolding_all decide
  refine ⟨fun sts hs h1 h2 => pushSeq_inv sts hs h1 h2, ?_, ?_, ?_⟩
  · rw [hfin]
    simp [newest30, MAX_HISTORY_SIZE]
  · rw [hfin]
  · intro n j hj heq
    rw [hfin] at heq
    have hv : ((⟨{ history := newest30, index := 29 }, noLive⟩ : AppFull)).hist.index <
        ((⟨{ history := newest30, index := 29 }, noLive⟩ : AppFull)).hist.history.length := by
      simp [newest30]
    have hmem := undoIter_scene_mem n ⟨{ history := newest30, index := 29 }, noLive⟩ hv
    exact hall _ hmem j hj heq

/-- Witness for history_cap_and_drop: the bounded-length conjunct applied to
one concrete push on the initial history. -/
theorem history_cap_and_drop_witness :
    (pushSeq initialHistory [noteScene 1]).history.length ≤ MAX_HISTORY_SIZE :=
  (history_cap_and_drop.1 [noteScene 1] initialHistory (by decide) (by decide)).1

theorem setState_characterization (h : List AppState) (i : ℕ) (u : AppState → AppState)
    (hv : i < h.length)
    (hneq : getStateSignature (u (h.getD i emptyState)) ≠
      getStateSignature (h.getD i emptyState)) :
    setState { history := h, index := i } u =
      (if MAX_HISTORY_SIZE < i + 2 then
        { history := (h.take (i + 1) ++ [u (h.getD i emptyState)]).drop 1, index := i }
      else
        { history := h.take (i + 1) ++ [u (h.getD i emptyState)], index := i + 1 }) := by
  unfold setState
  simp only [if_neg hneq]
  have htake : (h.take (i + 1)).length = i + 1 := by
    rw [List.length_take]
    omega
  have hlen : (h.take (i + 1) ++ [u (h.getD i emptyState)]).length = i + 2 := by
    simp [htake]
  by_cases hcap : MAX_HISTORY_SIZE < i + 2
  · rw [if_pos hcap, if_pos (by rw [hlen]; exact hcap)]
    have hd : ((h.take (i + 1) ++ [u (h.getD i emptyState)]).drop 1).length = i + 1 := by
      rw [List.length_drop, hlen]
      omega
    rw [hd]
    simp
  · rw [if_neg hcap, if_neg (by rw [hlen]; exact hcap)]
    rw [hlen]
    simp

/-- C1: after a commit that actually appends a new snapshot, undo restores a
scene with the signature of the pre-commit scene and redo then restores a
scene with the signature of the post-commit scene; undo and redo both clear
all three live-overlay slots and move the index by exactly one. -/
theorem commit_undo_redo (s : AppFull)
    (hv : s.hist.index < s.hist.history.length)
    (hlive : ¬ (s.live.images = none ∧ s.live.paths = none ∧ s.live.notes = none))
    (happend : getStateSignature (overlayScene s.live (currentScene s.hist)) ≠
      getStateSignature (currentScene s.hist)) :
    (undo (handleCommit s)).live = noLive ∧
    (undo (handleCommit s)).hist.index + 1 = (handleCommit s).hist.index ∧
    getStateSignature (currentScene (undo (handleCommit s)).hist) =
      getStateSignature (currentScene s.hist) ∧
    (redo (undo (handleCommit s))).live = noLive ∧
    (redo (undo (handleCommit s))).hist.index = (handleCommit s).hist.index ∧
    getStateSignature (currentScene (redo (undo (handleCommit s))).hist) =
      getStateSignature (currentScene (handleCommit s).hist) ∧
    (∀ t : AppFull, 0 < t.hist.index →
      (undo t).live = noLive ∧ (undo t).hist.index + 1 = t.hist.index) ∧
    (∀ t : AppFull, t.hist.index < t.hist.history.length - 1 →
      (redo t).live = noLive ∧ (redo t).hist.index = t.hist.index + 1) := by
  simp only [currentScene] at happend
  have hcommit : handleCommit s =
      { hist := setState s.hist (fun prevState => overlayScene s.live prevState)
      , live := noLive } := by
    unfold handleCommit
    rw [if_neg hlive]
  have hhist : s.hist = { history := s.hist.history, index := s.hist.index } := rfl
  have hchar := setState_characterization s.hist.history s.hist.index
      (fun prevState => overlayScene s.live prevState) hv happend
  have htake : (s.hist.history.take (s.hist.index + 1)).length = s.hist.index + 1 := by
    rw [List.length_take]
    omega
  have hscene1 : (s.hist.history.take (s.hist.index + 1) ++
      [overlayScene s.live (s.hist.history.getD s.hist.index emptyState)]).getD
        s.hist.index emptyState = s.hist.history.getD s.hist.index emptyState := by
    rw [getD_append_lt _ _ _ _ (by rw [htake]; omega)]
    exact getD_take _ _ _ _ (by omega)
  by_cases hcap : MAX_HISTORY_SIZE < s.hist.index + 2
  · have hipos : 0 < s.hist.index := by
      simp only [MAX_HISTORY_SIZE] at hcap
      omega
    have hc : handleCommit s =
        AppFull.mk
          (HistoryState.mk
            ((s.hist.history.take (s.hist.index + 1) ++
              [overlayScene s.live (s.hist.history.getD s.hist.index emptyState)]).drop 1)
            s.hist.index)
          noLive := by
      rw [hcommit]
      rw [hhist] at hchar
      rw [hchar, if_pos hcap]
    have hlen2 : ((s.hist.history.take (s.hist.index + 1) ++
        [overlayScene s.live (s.hist.history.getD s.hist.index emptyState)]).drop 1).length =
          s.hist.index + 1 := by
      simp [htake]
    have hundo : undo (handleCommit s) =
        AppFull.mk
          (HistoryState.mk
            ((s.hist.history.take (s.hist.index + 1) ++
              [overlayScene s.live (s.hist.history.getD s.hist.index emptyState)]).drop 1)
            (s.hist.index - 1))
          noLive := by
      rw [hc]
      unfold undo
      rw [if_pos (by exact hipos)]
    have hredo : redo (undo (handleCommit s)) = handleCommit s := by
      rw [hundo, hc]
      unfold redo
      rw [if_pos (by simp only [hlen2]; omega)]
      have : s.hist.index - 1 + 1 = s.hist.index := by omega
      rw [this]
    have hsceneu : currentScene (undo (handleCommit s)).hist =
        s.hist.history.getD s.hist.index emptyState := by
      rw [hundo]
      unfold currentScene
      rw [getD_drop]
      have : 1 + (s.hist.index - 1) = s.hist.index := by omega
      rw [this]
      exact hscene1
    refine ⟨by rw [hundo], by rw [hundo, hc]; simp; omega, ?_, ?_, ?_, ?_, ?_, ?_⟩
    · rw [hsceneu]
      rfl
    · rw [hredo, hc]
    · rw [hredo]
    · rw [hredo]
    · intro t ht
      unfold undo
      rw [if_pos ht]
      exact ⟨rfl, by simp; omega⟩
    · intro t ht
      unfold redo
      rw [if_pos ht]
      exact ⟨rfl, rfl⟩
  · have hc : handleCommit s =
        AppFull.mk
          (HistoryState.mk
            (s.hist.history.take (s.hist.index + 1) ++
              [overlayScene s.live (s.hist.history.getD s.hist.index emptyState)])
            (s.hist.index + 1))
          noLive := by
      rw [hcommit]
      rw [hhist] at hchar
      rw [hchar, if_neg hcap]
    have hundo : undo (handleCommit s) =
        AppFull.mk
          (HistoryState.mk
            (s.hist.history.take (s.hist.index + 1) ++
              [overlayScene s.live (s.hist.history.getD s.hist.index emptyState)])
            s.hist.index)
          noLive := by
      rw [hc]
      unfold undo
      rw [if_pos (by simp)]
      simp
    have hredo : redo (undo (handleCommit s)) = handleCommit s := by
      rw [hundo, hc]
      unfold redo
      rw [if_pos (by simp only [List.length_append, htake]; simp)]
    have hsceneu : currentScene (undo (handleCommit s)).hist =
        s.hist.history.getD s.hist.index emptyState := by
      rw [hundo]
      unfold currentScene
      exact hscene1
    refine ⟨by rw [hundo], by rw [hundo, hc], ?_, ?_, ?_, ?_, ?_, ?_⟩
    · rw [hsceneu]
      rfl
    · rw [hredo, hc]
    · rw [hredo]
    · rw [hredo]
    · intro t ht
      unfold undo
      rw [if_pos ht]
      exact ⟨rfl, by simp; omega⟩
    · intro t ht
      unfold redo
      rw [if_pos ht]
      exact ⟨rfl, rfl⟩

/-- A concrete state for the commit witness: initial history plus a live
stroke. -/
def commitWitnessState : AppFull :=
  { hist := initialHistory
  , live := { images := none
            , paths := some [{ points := [Point.mk 0 0], color := "c", size := 1, tool := Tool.BRUSH }]
            , notes := none } }

/-- Witness for commit_undo_redo: undo after a concrete committed stroke
restores the pre-commit signature. -/
theorem commit_undo_redo_witness :
    getStateSignature (currentScene (undo (handleCommit commitWitnessState)).hist) =
      getStateSignature (currentScene commitWitnessState.hist) :=
  (commit_undo_redo commitWitnessState (by decide) (by decide) (by decide)).2.2.1

theorem lookupPos_beginDragImages (images : List CanvasImage) (ids : List String)
    (t : String) (img0 : CanvasImage) (ht : t ∈ ids)
    (hfind : images.find? (fun i => i.id = t) = some img0) :
    lookupPos (beginDragImagePositions images ids) t = some (Point.mk img0.x img0.y) := by
  induction ids with
  | nil => simp at ht
  | cons a rest ih =>
      unfold beginDragImagePositions lookupPos at ih ⊢
      rw [List.filterMap_cons]
      by_cases hat : a = t
      · subst hat
        rw [hfind]
        simp [List.find?]
      · have ht1 : t ∈ rest := by
          cases ht with
          | head => exact absurd rfl hat
          | tail _ h => exact h
        cases hfa : images.find? (fun i => i.id = a) with
        | none => exact ih ht1
        | some imgA =>
            simp only [Option.map_some']
            rw [List.find?]
            simp only [decide_eq_false hat]
            exact ih ht1

theorem lookupPos_beginDragNotes (notes : List CanvasNote) (ids : List String)
    (u : String) (note0 : CanvasNote) (hu : u ∈ ids)
    (hfind : notes.find? (fun n => n.id = u) = some note0) :
    lookupPos (beginDragNotePositions notes ids) u = some (Point.mk note0.x note0.y) := by
  induction ids with
  | nil => simp at hu
  | cons a rest ih =>
      unfold beginDragNotePositions lookupPos at ih ⊢
      rw [List.filterMap_cons]
      by_cases hat : a = u
      · subst hat
        rw [hfind]
        simp [List.find?]
      · have hu1 : u ∈ rest := by
          cases hu with
          | head => exact absurd rfl hat
          | tail _ h => exact h
        cases hfa : notes.find? (fun n => n.id = a) with
        | none => exact ih hu1
        | some noteA =>
            simp only [Option.map_some']
            rw [List.find?]
            simp only [decide_eq_false hat]
            exact ih hu1

theorem dragImageApply_id (scale : ℚ) (anchor : Point) (dIds : List String)
    (sPos : List (String × Point)) (ptr : Point) (image : CanvasImage) :
    (dragImageApply scale anchor dIds sPos ptr image).id = image.id := by
  unfold dragImageApply
  by_cases h1 : dIds.contains image.id = true
  · rw [if_pos h1]
    cases lookupPos sPos image.id <;> rfl
  · rw [if_neg h1]

theorem dragNoteApply_id (scale : ℚ) (anchor : Point) (dIds : List String)
    (sPos : List (String × Point)) (ptr : Point) (noteItem : CanvasNote) :
    (dragNoteApply scale anchor dIds sPos ptr noteItem).id = noteItem.id := by
  unfold dragNoteApply
  by_cases h1 : dIds.contains noteItem.id = true
  · rw [if_pos h1]
    cases lookupPos sPos noteItem.id <;> rfl
  · rw [if_neg h1]

theorem dragImagesStep_ids (scale : ℚ) (anchor : Point) (dIds : List String)
    (sPos : List (String × Point)) (images : List CanvasImage) (ptr : Point) :
    (dragImagesStep scale anchor dIds sPos images ptr).map (fun i => i.id) =
      images.map (fun i => i.id) := by
  unfold dragImagesStep
  by_cases hg : dIds ≠ [] ∧ sPos ≠ []
  · rw [if_pos hg, List.map_map]
    apply List.map_congr_left
    intro image _
    exact dragImageApply_id scale anchor dIds sPos ptr image
  · rw [if_neg hg]

theorem dragNotesStep_ids (scale : ℚ) (anchor : Point) (dIds : List String)
    (sPos : List (String × Point)) (notes : List CanvasNote) (ptr : Point) :
    (dragNotesStep scale anchor dIds sPos notes ptr).map (fun n => n.id) =
      notes.map (fun n => n.id) := by
  unfold dragNotesStep
  by_cases hg : dIds ≠ [] ∧ sPos ≠ []
  · rw [if_pos hg, List.map_map]
    apply List.map_congr_left
    intro noteItem _
    exact dragNoteApply_id scale anchor dIds sPos ptr noteItem
  · rw [if_neg hg]

theorem dragImagesFold_ids (scale : ℚ) (anchor : Point) (dIds : List String)
    (sPos : List (String × Point)) (images : List CanvasImage) (events : List Point) :
    (events.foldl (dragImagesStep scale anchor dIds sPos) images).map (fun i => i.id) =
      images.map (fun i => i.id) := by
  induction events generalizing images with
  | nil => rfl
  | cons e rest ih =>
      rw [List.foldl_cons, ih, dragImagesStep_ids]

theorem dragNotesFold_ids (scale : ℚ) (anchor : Point) (dIds : List String)
    (sPos : List (String × Point)) (notes : List CanvasNote) (events : List Point) :
    (events.foldl (dragNotesStep scale anchor dIds sPos) notes).map (fun n => n.id) =
      notes.map (fun n => n.id) := by
  induction events generalizing notes with
  | nil => rfl
  | cons e rest ih =>
      rw [List.foldl_cons, ih, dragNotesStep_ids]

theorem dragImageApply_hit (scale : ℚ) (anchor : Point) (dIds : List String)
    (sPos : List (String × Point)) (ptr : Point) (a : CanvasImage)
    (p : Point) (hdr : a.id ∈ dIds) (hlook : lookupPos sPos a.id = some p) :
    dragImageApply scale anchor dIds sPos ptr a =
      { a with x := p.x + (ptr.x - anchor.x) / scale,
               y := p.y + (ptr.y - anchor.y) / scale } := by
  unfold dragImageApply
  rw [if_pos (List.elem_eq_true_of_mem hdr), hlook]

theorem dragNoteApply_hit (scale : ℚ) (anchor : Point) (dIds : List String)
    (sPos : List (String × Point)) (ptr : Point) (a : CanvasNote)
    (p : Point) (hdr : a.id ∈ dIds) (hlook : lookupPos sPos a.id = some p) :
    dragNoteApply scale anchor dIds sPos ptr a =
      { a with x := p.x + (ptr.x - anchor.x) / scale,
               y := p.y + (ptr.y - anchor.y) / scale } := by
  unfold dragNoteApply
  rw [if_pos (List.elem_eq_true_of_mem hdr), hlook]

theorem dragImagesStep_find (scale : ℚ) (anchor : Point) (dIds : List String)
    (sPos : List (String × Point)) (imgs : List CanvasImage) (ptr : Point)
    (t : String) (p : Point) (hdr : t ∈ dIds) (hlook : lookupPos sPos t = some p)
    (hmem : t ∈ imgs.map (fun i => i.id)) :
    ∃ img1,
      (dragImagesStep scale anchor dIds sPos imgs ptr).find? (fun i => i.id = t) = some img1 ∧
        img1.x = p.x + (ptr.x - anchor.x) / scale ∧
        img1.y = p.y + (ptr.y - anchor.y) / scale := by
  have hg1 : dIds ≠ [] := by
    intro h
    subst h
    simp at hdr
  have hg2 : sPos ≠ [] := by
    intro h
    subst h
    simp [lookupPos] at hlook
  unfold dragImagesStep
  rw [if_pos ⟨hg1, hg2⟩]
  induction imgs with
  | nil => simp at hmem
  | cons a rest ih =>
      by_cases hat : a.id = t
      · have hupd := dragImageApply_hit scale anchor dIds sPos ptr a p
          (by rw [hat]; exact hdr) (by rw [hat]; exact hlook)
        refine ⟨dragImageApply scale anchor dIds sPos ptr a, ?_, ?_, ?_⟩
        · rw [List.map_cons]
          apply List.find?_cons_of_pos
          rw [dragImageApply_id]
          simp [hat]
        · rw [hupd]
        · rw [hupd]
      · have hmem1 : t ∈ rest.map (fun i => i.id) := by
          simp only [List.map_cons, List.mem_cons] at hmem
          cases hmem with
          | inl h => exact absurd h.symm hat
          | inr h => exact h
        obtain ⟨img1, hf, hx, hy⟩ := ih hmem1
        refine ⟨img1, ?_, hx, hy⟩
        rw [List.map_cons]
        rw [List.find?_cons_of_neg]
        · exact hf
        · rw [dragImageApply_id]
          simp [hat]

theorem dragNotesStep_find (scale : ℚ) (anchor : Point) (dIds : List String)
    (sPos : List (String × Point)) (nts : List CanvasNote) (ptr : Point)
    (u : String) (p : Point) (hdr : u ∈ dIds) (hlook : lookupPos sPos u = some p)
    (hmem : u ∈ nts.map (fun n => n.id)) :
    ∃ note1,
      (dragNotesStep scale anchor dIds sPos nts ptr).find? (fun n => n.id = u) = some note1 ∧
        note1.x = p.x + (ptr.x - anchor.x) / scale ∧
        note1.y = p.y + (ptr.y - anchor.y) / scale := by
  have hg1 : dIds ≠ [] := by
    intro h
    subst h
    simp at hdr
  have hg2 : sPos ≠ [] := by
    intro h
    subst h
    simp [lookupPos] at hlook
  unfold dragNotesStep
  rw [if_pos ⟨hg1, hg2⟩]
  induction nts with
  | nil => simp at hmem
  | cons a rest ih =>
      by_cases hat : a.id = u
      · have hupd := dragNoteApply_hit scale anchor dIds sPos ptr a p
          (by rw [hat]; exact hdr) (by rw [hat]; exact hlook)
        refine ⟨dragNoteApply scale anchor dIds sPos ptr a, ?_, ?_, ?_⟩
        · rw [List.map_cons]
          apply List.find?_cons_of_pos
          rw [dragNoteApply_id]
          simp [hat]
        · rw [hupd]
        · rw [hupd]
      · have hmem1 : u ∈ rest.map (fun n => n.id) := by
          simp only [List.map_cons, List.mem_cons] at hmem
          cases hmem with
          | inl h => exact absurd h.symm hat
          | inr h => exact h
        obtain ⟨note1, hf, hx, hy⟩ := ih hmem1
        refine ⟨note1, ?_, hx, hy⟩
        rw [List.map_cons]
        rw [List.find?_cons_of_neg]
        · exact hf
        · rw [dragNoteApply_id]
          simp [hat]

/-- C4: after any number of intermediate drag pointer-move events ending at
a given pointer position, every dragged image and note sits at its
drag-start position plus exactly the final screen delta divided by the zoom
scale — the outcome depends only on the final pointer position and the
positions recorded once at drag start. -/
theorem drag_determinism (scale : ℚ) (anchor : Point) (images0 : List CanvasImage)
    (notes0 : List CanvasNote) (imgIds noteIds : List String)
    (pre : List Point) (finalPointer : Point) (t u : String)
    (img0 : CanvasImage) (note0 : CanvasNote)
    (htd : t ∈ imgIds)
    (hti : images0.find? (fun i => i.id = t) = some img0)
    (hud : u ∈ noteIds)
    (hun : notes0.find? (fun n => n.id = u) = some note0) :
    (∃ img1,
      ((pre ++ [finalPointer]).foldl
          (dragImagesStep scale anchor imgIds (beginDragImagePositions images0 imgIds))
          images0).find? (fun i => i.id = t) = some img1 ∧
        img1.x = img0.x + (finalPointer.x - anchor.x) / scale ∧
        img1.y = img0.y + (finalPointer.y - anchor.y) / scale) ∧
    (∃ note1,
      ((pre ++ [finalPointer]).foldl
          (dragNotesStep scale anchor noteIds (beginDragNotePositions notes0 noteIds))
          notes0).find? (fun n => n.id = u) = some note1 ∧
        note1.x = note0.x + (finalPointer.x - anchor.x) / scale ∧
        note1.y = note0.y + (finalPointer.y - anchor.y) / scale) := by
  constructor
  · rw [List.foldl_append]
    simp only [List.foldl_cons, List.foldl_nil]
    have hmemGoal : t ∈ (List.foldl
        (dragImagesStep scale anchor imgIds (beginDragImagePositions images0 imgIds))
        images0 pre).map (fun i => i.id) := by
      rw [dragImagesFold_ids]
      have hm := List.mem_of_find?_eq_some hti
      have hp := List.find?_some hti
      simp only [decide_eq_true_eq] at hp
      rw [← hp]
      exact List.mem_map_of_mem (fun i => i.id) hm
    obtain ⟨img1, hf, hx, hy⟩ := dragImagesStep_find scale anchor imgIds
      (beginDragImagePositions images0 imgIds)
      (List.foldl (dragImagesStep scale anchor imgIds (beginDragImagePositions images0 imgIds))
        images0 pre)
      finalPointer t (Point.mk img0.x img0.y) htd
      (lookupPos_beginDragImages images0 imgIds t img0 htd hti) hmemGoal
    exact ⟨img1, hf, hx, hy⟩
  · rw [List.foldl_append]
    simp only [List.foldl_cons, List.foldl_nil]
    have hmemGoal : u ∈ (List.foldl
        (dragNotesStep scale anchor noteIds (beginDragNotePositions notes0 noteIds))
        notes0 pre).map (fun n => n.id) := by
      rw [dragNotesFold_ids]
      have hm := List.mem_of_find?_eq_some hun
      have hp := List.find?_some hun
      simp only [decide_eq_true_eq] at hp
      rw [← hp]
      exact List.mem_map_of_mem (fun n => n.id) hm
    obtain ⟨note1, hf, hx, hy⟩ := dragNotesStep_find scale anchor noteIds
      (beginDragNotePositions notes0 noteIds)
      (List.foldl (dragNotesStep scale anchor noteIds (beginDragNotePositions notes0 noteIds))
        notes0 pre)
      finalPointer u (Point.mk note0.x note0.y) hud
      (lookupPos_beginDragNotes notes0 noteIds u note0 hud hun) hmemGoal
    exact ⟨note1, hf, hx, hy⟩

/-- A concrete image for the drag witness. -/
def dragWitnessImage : CanvasImage :=
  { id := "a", x := 0, y := 0, width := 10, height := 10, naturalWidth := 10,
    naturalHeight := 10, fileName := "a.png", fileType := "image/png" }

/-- A concrete note for the drag witness. -/
def dragWitnessNote : CanvasNote :=
  { id := "n", x := 0, y := 0, width := 200, height := 100, text := "", backgroundColor := "c" }

/-- Witness for drag_determinism: a two-event drag of one image and one
note. -/
theorem drag_determinism_witness :
    (∃ img1,
      (([Point.mk 1 1] ++ [Point.mk 3 4]).foldl
          (dragImagesStep 2 (Point.mk 0 0) ["a"]
            (beginDragImagePositions [dragWitnessImage] ["a"]))
          [dragWitnessImage]).find? (fun i => i.id = "a") = some img1 ∧
        img1.x = dragWitnessImage.x + ((Point.mk 3 4).x - (Point.mk 0 0).x) / 2 ∧
        img1.y = dragWitnessImage.y + ((Point.mk 3 4).y - (Point.mk 0 0).y) / 2) ∧
    (∃ note1,
      (([Point.mk 1 1] ++ [Point.mk 3 4]).foldl
          (dragNotesStep 2 (Point.mk 0 0) ["n"]
            (beginDragNotePositions [dragWitnessNote] ["n"]))
          [dragWitnessNote]).find? (fun n => n.id = "n") = some note1 ∧
        note1.x = dragWitnessNote.x + ((Point.mk 3 4).x - (Point.mk 0 0).x) / 2 ∧
        note1.y = dragWitnessNote.y + ((Point.mk 3 4).y - (Point.mk 0 0).y) / 2) :=
  drag_determinism 2 (Point.mk 0 0) [dragWitnessImage] [dragWitnessNote] ["a"] ["n"]
    [Point.mk 1 1] (Point.mk 3 4) "a" "n" dragWitnessImage dragWitnessNote
    (by decide) (by decide) (by decide) (by decide)

theorem clampRect_bounds (W H : ℚ) (r : Rect) :
    0 ≤ (clampRect W H r).x ∧ 0 ≤ (clampRect W H r).y ∧
    (clampRect W H r).x + (clampRect W H r).width ≤ W ∧
    (clampRect W H r).y + (clampRect W H r).height ≤ H := by
  unfold clampRect
  refine ⟨le_max_left 0 _, le_max_left 0 _, ?_, ?_⟩
  · by_cases hx : max 0 r.x + r.width > W
    · simp only [if_pos hx]
      linarith
    · simp only [if_neg hx]
      linarith
  · by_cases hy : max 0 r.y + r.height > H
    · simp only [if_pos hy]
      linarith
    · simp only [if_neg hy]
      linarith

theorem cropMoveStep_bounds (W H : ℚ) (startRect : Rect) (step : CropAction × ℚ × ℚ) :
    0 ≤ (cropMoveStep W H startRect step).x ∧
    0 ≤ (cropMoveStep W H startRect step).y ∧
    (cropMoveStep W H startRect step).x + (cropMoveStep W H startRect step).width ≤ W ∧
    (cropMoveStep W H startRect step).y + (cropMoveStep W H startRect step).height ≤ H := by
  unfold cropMoveStep
  exact clampRect_bounds W H (flipNegative (applyCropAction step.1 startRect step.2.1 step.2.2))

/-- C5: after any nonempty sequence of crop move or resize-handle steps, the
crop rectangle satisfies the image-bound inequalities with positive width
and height, or else confirming the crop cancels it instead. -/
theorem crop_rect_clamped (steps : List (CropAction × ℚ × ℚ)) (r0 : Rect) (W H : ℚ)
    (hne : steps ≠ []) :
    (0 ≤ (steps.foldl (cropMoveStep W H) r0).x ∧
     0 ≤ (steps.foldl (cropMoveStep W H) r0).y ∧
     (steps.foldl (cropMoveStep W H) r0).x + (steps.foldl (cropMoveStep W H) r0).width ≤ W ∧
     (steps.foldl (cropMoveStep W H) r0).y + (steps.foldl (cropMoveStep W H) r0).height ≤ H ∧
     0 < (steps.foldl (cropMoveStep W H) r0).width ∧
     0 < (steps.foldl (cropMoveStep W H) r0).height) ∨
    handleConfirmCrop (steps.foldl (cropMoveStep W H) r0) = CropConfirmOutcome.cancelled := by
  rcases List.eq_nil_or_concat steps with h | ⟨L, b, rfl⟩
  · exact absurd h hne
  · simp only [List.concat_eq_append]
    rw [List.foldl_append]
    simp only [List.foldl_cons, List.foldl_nil]
    have hb := cropMoveStep_bounds W H (List.foldl (cropMoveStep W H) r0 L) b
    by_cases hw : 0 < (cropMoveStep W H (List.foldl (cropMoveStep W H) r0 L) b).width ∧
        0 < (cropMoveStep W H (List.foldl (cropMoveStep W H) r0 L) b).height
    · exact Or.inl ⟨hb.1, hb.2.1, hb.2.2.1, hb.2.2.2, hw.1, hw.2⟩
    · refine Or.inr ?_
      unfold handleConfirmCrop
      rw [if_pos ?hcond]
      case hcond =>
        by_cases h1 : 0 < (cropMoveStep W H (List.foldl (cropMoveStep W H) r0 L) b).width
        · exact Or.inr (le_of_not_lt fun h2 => hw ⟨h1, h2⟩)
        · exact Or.inl (le_of_not_lt h1)

/-- Witness for crop_rect_clamped: one move step starting from the full
image rectangle. -/
theorem crop_rect_clamped_witness :
    (0 ≤ ([(CropAction.move, (0 : ℚ), (0 : ℚ))].foldl (cropMoveStep 10 10) (Rect.mk 0 0 10 10)).x ∧
     0 ≤ ([(CropAction.move, (0 : ℚ), (0 : ℚ))].foldl (cropMoveStep 10 10) (Rect.mk 0 0 10 10)).y ∧
     ([(CropAction.move, (0 : ℚ), (0 : ℚ))].foldl (cropMoveStep 10 10) (Rect.mk 0 0 10 10)).x +
       ([(CropAction.move, (0 : ℚ), (0 : ℚ))].foldl (cropMoveStep 10 10) (Rect.mk 0 0 10 10)).width ≤ 10 ∧
     ([(CropAction.move, (0 : ℚ), (0 : ℚ))].foldl (cropMoveStep 10 10) (Rect.mk 0 0 10 10)).y +
       ([(CropAction.move, (0 : ℚ), (0 : ℚ))].foldl (cropMoveStep 10 10) (Rect.mk 0 0 10 10)).height ≤ 10 ∧
     0 < ([(CropAction.move, (0 : ℚ), (0 : ℚ))].foldl (cropMoveStep 10 10) (Rect.mk 0 0 10 10)).width ∧
     0 < ([(CropAction.move, (0 : ℚ), (0 : ℚ))].foldl (cropMoveStep 10 10) (Rect.mk 0 0 10 10)).height) ∨
    handleConfirmCrop
        ([(CropAction.move, (0 : ℚ), (0 : ℚ))].foldl (cropMoveStep 10 10) (Rect.mk 0 0 10 10)) =
      CropConfirmOutcome.cancelled :=
  crop_rect_clamped [(CropAction.move, 0, 0)] (Rect.mk 0 0 10 10) 10 10 (by decide)

/-- C6 counterexample: a multi-select toggle on a note leaves a previously
selected image selected, and a multi-select toggle on an image leaves a
previously selected note selected, so image and note selection are not
mutually exclusive under multi-toggle. -/
theorem multi_select_not_exclusive :
    (handleNoteSelection
        { selectedImageIds := ["i1"], selectedNoteIds := [], referenceImageIds := [] }
        (some "n1") true).selectedImageIds = ["i1"] ∧
    (handleImageSelection
        { selectedImageIds := [], selectedNoteIds := ["n1"], referenceImageIds := [] }
        (some "i1") true false).selectedNoteIds = ["n1"] := by
  decide

/-- C6 amended: every single (non-multi) note-select operation empties the
image selection and the reference list, and every single (non-multi,
non-reference) image-select operation empties the note selection; the
multi-select toggles only edit their own category. -/
theorem single_selection_exclusive (s : SelectionState) (noteId imageId : Option String) :
    (handleNoteSelection s noteId false).selectedImageIds = [] ∧
    (handleNoteSelection s noteId false).referenceImageIds = [] ∧
    (handleImageSelection s imageId false false).selectedNoteIds = [] := by
  refine ⟨?_, ?_, ?_⟩
  · cases noteId with
    | none => rfl
    | some nid =>
        unfold handleNoteSelection
        simp only [Bool.false_eq_true, if_false]
        split
        · rfl
        · rfl
  · cases noteId with
    | none => rfl
    | some nid =>
        unfold handleNoteSelection
        simp only [Bool.false_eq_true, if_false]
        split
        · rfl
        · rfl
  · cases imageId with
    | none => rfl
    | some iid =>
        unfold handleImageSelection
        simp only [Bool.false_and, Bool.false_eq_true, if_false]
        split
        · rfl
        · rfl

/-- A decode oracle for concrete import scenarios: every data URL decodes to
a one-by-one image. -/
def decodeUnit : String → Option (ℚ × ℚ) := fun _ => some (1, 1)

/-- A snapshot document with the given image, note and path entry arrays. -/
def mkSnapshotDoc (imgs nts pths : List Json) : Json :=
  Json.obj [("state", Json.obj
    [("images", Json.arr imgs), ("notes", Json.arr nts), ("paths", Json.arr pths)])]

/-- C7 counterexample: a document whose top level is structurally valid but
whose single image entry lacks a dataUrl is rejected as a whole instead of
being repaired per entry. -/
theorem import_rejects_doc_on_bad_image_entry :
    importSnapshotFromFile "c" 1 decodeUnit (mkSnapshotDoc [Json.obj []] [] []) =
      Except.error "Snapshot image at index 0 is invalid." := rfl

/-- Whether an image entry passes the per-entry validation of the importer:
a truthy object whose dataUrl is a string that decodes. -/
def validImageEntry (decode : String → Option (ℚ × ℚ)) (j : Json) : Bool :=
  j.truthy && j.isObjectType &&
    (match j.getStr? "dataUrl" with
     | some s => (decode s).isSome
     | none => false)

theorem importImages_ok (decode : String → Option (ℚ × ℚ)) (imgs : List Json)
    (hall : imgs.all (validImageEntry decode) = true) :
    ∀ index counter : ℕ, ∃ res, importImages decode imgs index counter = Except.ok res := by
  induction imgs with
  | nil => exact fun i c => ⟨([], c), rfl⟩
  | cons j rest ih =>
      intro i c
      simp only [List.all_cons, Bool.and_eq_true] at hall
      obtain ⟨hj, hrest⟩ := hall
      unfold validImageEntry at hj
      simp only [Bool.and_eq_true] at hj
      obtain ⟨⟨h1, h2⟩, h3⟩ := hj
      cases hs : j.getStr? "dataUrl" with
      | none =>
          rw [hs] at h3
          simp at h3
      | some dataUrl =>
          rw [hs] at h3
          obtain ⟨dims, hd⟩ := Option.isSome_iff_exists.mp h3
          have hcond : j.truthy ∧ j.isObjectType ∧ (j.getStr? "dataUrl").isSome := by
            refine ⟨h1, h2, ?_⟩
            rw [hs]
            rfl
          obtain ⟨res, hres⟩ := ih hrest (i + 1) (nextCounter j c)
          refine ⟨(restoreImage j i c dims :: res.1, res.2), ?_⟩
          unfold importImages
          rw [if_neg (not_not_intro hcond)]
          simp only [hs, hd, hres]

/-- C7 amended: the importer fails the whole document on a structurally
invalid top level, repairs note and path entries per entry (keeping
duplicate ids as given), and succeeds whenever every image entry is a truthy
object with a decodable string dataUrl; an image entry failing that check
rejects the whole document, as the counterexample shows. -/
theorem import_validation_amended :
    (∀ (brushColor : String) (brushSize : ℚ) (decode : String → Option (ℚ × ℚ))
        (imgs nts pths : List Json),
        imgs.all (validImageEntry decode) = true →
        ∃ st, importSnapshotFromFile brushColor brushSize decode
            (mkSnapshotDoc imgs nts pths) = Except.ok st) ∧
    importSnapshotFromFile "c" 1 decodeUnit (Json.num 5) =
      Except.error "Snapshot file is invalid." ∧
    importSnapshotFromFile "c" 1 decodeUnit
        (Json.obj [("state", Json.obj [("images", Json.null)])]) =
      Except.error "Snapshot data is incomplete." ∧
    importSnapshotFromFile "c" 1 decodeUnit
        (mkSnapshotDoc []
          [Json.obj [("id", Json.str "a")], Json.obj [("id", Json.str "a")]]
          [Json.obj []]) =
      Except.ok
        { images := []
        , paths := [{ points := [], color := "c", size := 1, tool := Tool.BRUSH }]
        , notes :=
            [{ id := "a", x := 0, y := 0, width := 200, height := 120, text := ""
             , backgroundColor := DEFAULT_NOTE_BACKGROUND }
            , { id := "a", x := 0, y := 0, width := 200, height := 120, text := ""
              , backgroundColor := DEFAULT_NOTE_BACKGROUND }] } := by
  refine ⟨?_, rfl, rfl, rfl⟩
  intro brushColor brushSize decode imgs nts pths hall
  obtain ⟨res, hres⟩ := importImages_ok decode imgs hall 0 0
  refine ⟨{ images := res.1
          , paths := pths.map (importPath brushColor brushSize)
          , notes := (importNotes nts res.2).1 }, ?_⟩
  have hstep : importSnapshotFromFile brushColor brushSize decode (mkSnapshotDoc imgs nts pths) =
      match importImages decode imgs 0 0 with
      | Except.error e => Except.error e
      | Except.ok (restoredImages, counter1) =>
          Except.ok { images := restoredImages
                    , paths := pths.map (importPath brushColor brushSize)
                    , notes := (importNotes nts counter1).1 } := rfl
  rw [hstep, hres]

/-- Witness for import_validation_amended: one valid image entry imports
successfully. -/
theorem import_validation_amended_witness :
    ∃ st, importSnapshotFromFile "c" 1 decodeUnit
        (mkSnapshotDoc [Json.obj [("dataUrl", Json.str "d")]] [] []) = Except.ok st :=
  import_validation_amended.1 "c" 1 decodeUnit
    [Json.obj [("dataUrl", Json.str "d")]] [] [] rfl

/-- C8: with a primary image and a nonempty resolved reference list, no
overlap sends the primary standalone with the references as auxiliary
inputs, while any overlap rasterizes primary and references into one
composite source and sends an empty reference list. -/
theorem generation_compose_decision (images : List CanvasImage)
    (activePrimaryImage : CanvasImage) (referenceImageIds : List String)
    (refs : List CanvasImage)
    (hrefs : refs = referenceImageIds.filterMap fun id => images.find? fun img => img.id = id)
    (href : refs ≠ []) :
    ((∀ r ∈ refs, isOverlapping activePrimaryImage r = false) →
      prepareGenerationInputs images activePrimaryImage referenceImageIds =
        { compositeSource := false
        , sourceImageIds := [activePrimaryImage.id]
        , referenceImagesForAPI := refs.map fun img => img.id }) ∧
    ((∃ r ∈ refs, isOverlapping activePrimaryImage r = true) →
      prepareGenerationInputs images activePrimaryImage referenceImageIds =
        { compositeSource := true
        , sourceImageIds := (images.filter fun img =>
            ((activePrimaryImage :: refs).map fun i => i.id).contains img.id).map fun img => img.id
        , referenceImagesForAPI := [] }) := by
  constructor
  · intro hno
    unfold prepareGenerationInputs
    rw [if_neg]
    · rw [← hrefs]
    · intro hcomp
      obtain ⟨r, hr, ho⟩ := List.any_eq_true.mp hcomp.2
      rw [← hrefs] at hr
      have hf := hno r hr
      rw [ho] at hf
      simp at hf
  · intro hyes
    obtain ⟨r, hr, ho⟩ := hyes
    unfold prepareGenerationInputs
    rw [if_pos]
    · rw [← hrefs]
    · constructor
      · rw [← hrefs]
        exact href
      · refine List.any_eq_true.mpr ⟨r, ?_, ho⟩
        rw [← hrefs]
        exact hr

/-- A pair of non-overlapping images for the compose-decision witness. -/
def composeWitnessPrimary : CanvasImage :=
  { id := "a", x := 0, y := 0, width := 10, height := 10, naturalWidth := 10,
    naturalHeight := 10, fileName := "a.png", fileType := "image/png" }

def composeWitnessReference : CanvasImage :=
  { id := "b", x := 100, y := 0, width := 10, height := 10, naturalWidth := 10,
    naturalHeight := 10, fileName := "b.png", fileType := "image/png" }

/-- Witness for generation_compose_decision: a distant reference image is
sent as a separate auxiliary input. -/
theorem generation_compose_decision_witness :
    prepareGenerationInputs [composeWitnessPrimary, composeWitnessReference]
        composeWitnessPrimary ["b"] =
      { compositeSource := false
      , sourceImageIds := ["a"]
      , referenceImagesForAPI := ["b"] } :=
  (generation_compose_decision [composeWitnessPrimary, composeWitnessReference]
      composeWitnessPrimary ["b"] [composeWitnessReference] rfl (by decide)).1
    (by with_unfolding_all decide)

/-- C9 counterexample: importing a snapshot whose single path entry has only
malformed points persists a committed scene that contains a path with zero
points. -/
theorem import_persists_zero_point_path :
    importToAppFull "c" 1 decodeUnit
        (mkSnapshotDoc [] [] [Json.obj [("points", Json.arr [Json.num 3])]]) =
      Except.ok
        { hist := { history :=
            [{ images := []
             , paths := [{ points := [], color := "c", size := 1, tool := Tool.BRUSH }]
             , notes := [] }], index := 0 }
        , live := noLive } := rfl

/-- C9 amended: the drawing operations preserve the nonempty-points
invariant — a freshly started stroke has exactly the pressed point and a
drawing move appends a point — but snapshot import can persist a zero-point
path, as the counterexample shows. -/
theorem drawing_paths_nonempty (appMode : AppMode) (activeTool : Tool)
    (brushColor : String) (brushSize scale : ℚ) (point : Point) (paths : List Path)
    (h : ∀ p ∈ paths, p.points ≠ []) :
    (∀ p ∈ startDrawing appMode activeTool brushColor brushSize scale point paths,
      p.points ≠ []) ∧
    (∀ p ∈ drawMove point paths, p.points ≠ []) := by
  constructor
  · intro p hp
    unfold startDrawing at hp
    by_cases ht : activeTool = Tool.BRUSH ∨ activeTool = Tool.ERASE
    · rw [if_pos ht] at hp
      cases hrt : resolvePathTool appMode activeTool with
      | none =>
          rw [hrt] at hp
          exact h p hp
      | some t =>
          rw [hrt] at hp
          rcases List.mem_append.mp hp with h1 | h2
          · exact h p h1
          · simp only [List.mem_singleton] at h2
            subst h2
            simp
    · rw [if_neg ht] at hp
      exact h p hp
  · intro p hp
    unfold drawMove at hp
    cases hrev : paths.reverse with
    | nil =>
        rw [hrev] at hp
        exact h p hp
    | cons last revInit =>
        rw [hrev] at hp
        have hpaths : paths = revInit.reverse ++ [last] := by
          have := congrArg List.reverse hrev
          simpa using this
        rcases List.mem_append.mp hp with h1 | h2
        · exact h p (by rw [hpaths]; exact List.mem_append_left _ h1)
        · simp only [List.mem_singleton] at h2
          subst h2
          simp

/-- Witness for drawing_paths_nonempty: starting a stroke on an empty path
list in annotate mode. -/
theorem drawing_paths_nonempty_witness :
    (∀ p ∈ startDrawing AppMode.ANNOTATE Tool.BRUSH "c" 4 2 (Point.mk 0 0) [],
      p.points ≠ []) ∧
    (∀ p ∈ drawMove (Point.mk 0 0) ([] : List Path), p.points ≠ []) :=
  drawing_paths_nonempty AppMode.ANNOTATE Tool.BRUSH "c" 4 2 (Point.mk 0 0) []
    (by intro p hp; simp at hp)

/-- C10: the reference toggle applies only when a primary image exists and
the toggled id differs from it — removing a present id, appending an absent
one only below the capacity of two — so the reference list stays within
capacity and never contains the primary id; when no primary exists or the
id is the primary itself, the operation degenerates to selection and clears
the reference list. -/
theorem reference_toggle_invariant (s : SelectionState) (imageId : String)
    (hlen : s.referenceImageIds.length ≤ MAX_REFERENCE_IMAGES)
    (hpri : ∀ pid, s.selectedImageIds.head? = some pid → pid ∉ s.referenceImageIds) :
    ((handleImageSelection s (some imageId) false true).referenceImageIds.length ≤
        MAX_REFERENCE_IMAGES ∧
     ∀ pid, (handleImageSelection s (some imageId) false true).selectedImageIds.head? =
        some pid → pid ∉ (handleImageSelection s (some imageId) false true).referenceImageIds) ∧
    (∀ pid, s.selectedImageIds.head? = some pid → imageId ≠ pid →
      (handleImageSelection s (some imageId) false true).selectedImageIds =
          s.selectedImageIds ∧
      (handleImageSelection s (some imageId) false true).referenceImageIds =
        (if s.referenceImageIds.contains imageId then
          s.referenceImageIds.filter fun id => id ≠ imageId
        else if s.referenceImageIds.length < MAX_REFERENCE_IMAGES then
          s.referenceImageIds ++ [imageId]
        else s.referenceImageIds)) ∧
    ((s.selectedImageIds.head? = none ∨ s.selectedImageIds.head? = some imageId) →
      (handleImageSelection s (some imageId) false true).referenceImageIds = []) := by
  cases hh : s.selectedImageIds.head? with
  | none =>
      have hres : handleImageSelection s (some imageId) false true =
          { selectedImageIds := [imageId], selectedNoteIds := [], referenceImageIds := [] } := by
        unfold handleImageSelection
        simp [hh]
      rw [hres]
      refine ⟨⟨by simp [MAX_REFERENCE_IMAGES], by simp⟩, ?_, fun _ => rfl⟩
      intro pid hp
      simp at hp
  | some pid0 =>
      by_cases hne : imageId = pid0
      · subst hne
        have hres : handleImageSelection s (some imageId) false true =
            (if s.selectedImageIds.head? = some imageId ∧ s.selectedImageIds.length = 1 then
              { s with selectedNoteIds := [], referenceImageIds := [] }
            else
              { selectedImageIds := [imageId], selectedNoteIds := [], referenceImageIds := [] }) := by
          unfold handleImageSelection
          simp [hh]
        have hrefs0 : (handleImageSelection s (some imageId) false true).referenceImageIds = [] := by
          rw [hres]
          split
          · rfl
          · rfl
        refine ⟨⟨by rw [hrefs0]; simp [MAX_REFERENCE_IMAGES], ?_⟩, ?_, fun _ => hrefs0⟩
        · intro pid _
          rw [hrefs0]
          simp
        · intro pid hp hne2
          injection hp with hp
          exact absurd hp hne2
      · have hres : handleImageSelection s (some imageId) false true =
            { s with referenceImageIds :=
                if s.referenceImageIds.contains imageId then
                  s.referenceImageIds.filter fun id => id ≠ imageId
                else if s.referenceImageIds.length < MAX_REFERENCE_IMAGES then
                  s.referenceImageIds ++ [imageId]
                else s.referenceImageIds } := by
          unfold handleImageSelection
          simp [hh, hne]
        rw [hres]
        have hp0 : pid0 ∉ s.referenceImageIds := hpri pid0 hh
        refine ⟨⟨?_, ?_⟩, ?_, ?_⟩
        · simp only
          split
          · exact le_trans (List.length_filter_le _ _) hlen
          · split
            · simp only [List.length_append, List.length_singleton]
              omega
            · exact hlen
        · intro pid hp
          simp only at hp ⊢
          rw [hh] at hp
          injection hp with hp
          subst hp
          split
          · intro hmem
            exact hp0 (List.mem_of_mem_filter hmem)
          · split
            · intro hmem
              rcases List.mem_append.mp hmem with h1 | h2
              · exact hp0 h1
              · simp only [List.mem_singleton] at h2
                exact hne h2.symm
            · exact hp0
        · intro pid hp hne2
          exact ⟨rfl, rfl⟩
        · intro hdis
          rcases hdis with h1 | h1
          · simp at h1
          · injection h1 with h1
            exact absurd h1.symm hne

/-- Witness for reference_toggle_invariant: toggling a non-primary id onto a
one-element reference list. -/
theorem reference_toggle_invariant_witness :
    (handleImageSelection
        { selectedImageIds := ["p"], selectedNoteIds := [], referenceImageIds := ["r"] }
        (some "q") false true).referenceImageIds.length ≤ MAX_REFERENCE_IMAGES :=
  (reference_toggle_invariant
      { selectedImageIds := ["p"], selectedNoteIds := [], referenceImageIds := ["r"] }
      "q" (by decide)
      (by
        intro pid hp
        have hp1 : pid = "p" := by
          simpa using hp.symm
        subst hp1
        decide)).1.1

end CanvaBanana
